import Mathlib

/-!
Verification of the multi-stage QA test-plan generation pipeline
(`utils/videoProcessor.ts`): the markdown table parser, the prioritization
merge, the traceability step, the multimodal prompt assembler and the
pipeline orchestrator.  JavaScript strings are embedded as `List Char`;
JavaScript's `String.prototype.trim`, `split`, `startsWith`, `includes`
and `Array.prototype.indexOf` / `filter(Boolean)` are modelled by the
executable functions below.
-/

namespace QAPlan

/-- JavaScript strings, embedded as lists of characters. -/
abbrev Str := List Char

/-- The whitespace characters relevant to this pipeline, as removed by
JavaScript's `String.prototype.trim`. -/
def isWhite (c : Char) : Bool :=
  c = ' ' || c = '\t' || c = '\n' || c = '\r'

/-- JavaScript `s.trim()`: remove leading and trailing whitespace. -/
def trimStr (s : Str) : Str :=
  ((s.dropWhile isWhite).reverse.dropWhile isWhite).reverse

/-- JavaScript `s.split(sep)` for a one-character separator: split at every
occurrence, keeping empty pieces (the result is always non-empty). -/
def splitOnChar (sep : Char) : Str → List Str
  | [] => [[]]
  | c :: rest =>
    if c = sep then [] :: splitOnChar sep rest
    else
      match splitOnChar sep rest with
      | [] => [[c]]
      | p :: ps => (c :: p) :: ps

/-- JavaScript `s.startsWith('|')`: the first character is a pipe. -/
def startsWithPipe (s : Str) : Bool :=
  match s with
  | c :: _ => c = '|'
  | [] => false

/-- The substring checked by `line.includes('---')` in the parser's line
filter. -/
def tripleDash : Str := ("---").data

/-- JavaScript `hay.includes(needle)`: substring containment. -/
def includesStr (needle hay : Str) : Bool := decide (needle <:+: hay)

/-- The parser's line selection
(`markdown.trim().split('\n').filter(line => line.trim().startsWith('|') && !line.includes('---'))`). -/
def lineSelect (markdown : Str) : List Str :=
  (splitOnChar '\n' (trimStr markdown)).filter
    (fun line => startsWithPipe (trimStr line) && !(includesStr tripleDash line))

/-- Cell extraction used for the header row and for every data row:
`row.split('|').map(c => c.trim()).filter(Boolean)` (JavaScript's
`filter(Boolean)` removes exactly the empty strings). -/
def splitCells (row : Str) : List Str :=
  ((splitOnChar '|' row).map trimStr).filter (fun s => !s.isEmpty)

/-- JavaScript `Array.prototype.indexOf`, with `none` standing for the `-1`
sentinel of a missing element. -/
def idxOf? {α : Type} [DecidableEq α] (a : α) : List α → Option Nat
  | [] => none
  | x :: xs => if x = a then some 0 else (idxOf? a xs).map (· + 1)

/- The eight required header names of the markdown table. -/

def hTestCaseID : Str := ("Test Case ID").data
def hTestType : Str := ("Test Type").data
def hSummary : Str := ("Summary").data
def hPreconditions : Str := ("Preconditions").data
def hTestSteps : Str := ("Test Steps").data
def hExpectedResult : Str := ("Expected Result").data
def hStoryID : Str := ("Story ID").data
def hRiskType : Str := ("Risk Type").data

/-- The required headers, in the canonical order of the source's `headerMap`. -/
def requiredHeaders : List Str :=
  [hTestCaseID, hTestType, hSummary, hPreconditions, hTestSteps,
   hExpectedResult, hStoryID, hRiskType]

/- Per-field default placeholders (`|| 'N/A'`, `|| 'No summary'`, `|| 'None'`). -/

def strNA : Str := ("N/A").data
def strNoSummary : Str := ("No summary").data
def strNone : Str := ("None").data

/-- JavaScript `cells[i] || dflt`: an out-of-range access yields `undefined`
and the empty string is falsy, so both are replaced by the default. -/
def cellAt (cells : List Str) (i : Nat) (dflt : Str) : Str :=
  match cells.get? i with
  | some c => if c.isEmpty then dflt else c
  | none => dflt

/-- A parsed test-case record, before prioritization
(`Omit<TestCase, 'priority' | 'priority_reasoning'>`). -/
structure RawTestCase where
  id : Str
  type : Str
  summary : Str
  preconditions : Str
  steps : Str
  expectedResult : Str
  storyId : Str
  risk : Str
deriving DecidableEq

/-- `parseMarkdownTable`: select the table lines, require at least a header
line and one data row, resolve the eight required column indices by name
(the source stores `indexOf` results, `-1` when missing, and aborts with
`[]` when any is `-1` — modelled by the `Option` values `m0`–`m7`), then
map every remaining line into a record through the resolved indices. -/
def parseMarkdownTable (markdown : Str) : List RawTestCase :=
  match lineSelect markdown with
  | headerLine :: r0 :: rest =>
    let headers := splitCells headerLine
    let m0 := idxOf? hTestCaseID headers
    let m1 := idxOf? hTestType headers
    let m2 := idxOf? hSummary headers
    let m3 := idxOf? hPreconditions headers
    let m4 := idxOf? hTestSteps headers
    let m5 := idxOf? hExpectedResult headers
    let m6 := idxOf? hStoryID headers
    let m7 := idxOf? hRiskType headers
    if m0 = none ∨ m1 = none ∨ m2 = none ∨ m3 = none ∨
       m4 = none ∨ m5 = none ∨ m6 = none ∨ m7 = none then []
    else
      (r0 :: rest).map (fun row =>
        let cells := splitCells row
        { id := cellAt cells (m0.getD 0) strNA
          type := cellAt cells (m1.getD 0) strNA
          summary := cellAt cells (m2.getD 0) strNoSummary
          preconditions := cellAt cells (m3.getD 0) strNone
          steps := cellAt cells (m4.getD 0) strNA
          expectedResult := cellAt cells (m5.getD 0) strNA
          storyId := cellAt cells (m6.getD 0) strNA
          risk := cellAt cells (m7.getD 0) strNA })
  | _ => []

/-- One entry of the prioritization response (`PrioritizedCase`). -/
structure PrioritizedCase where
  test_case_id : Str
  priority : Str
  reasoning : Str
deriving DecidableEq

/-- A fully enriched test case (`TestCase`): a parsed record plus the
priority fields added by the prioritization merge. -/
structure TestCase extends RawTestCase where
  priority : Str
  priority_reasoning : Str
deriving DecidableEq

/-- The lookup built by
`new Map(result.prioritized_cases.map(p => [p.test_case_id, {priority, reasoning}]))`;
a JavaScript `Map` keeps the last binding for a duplicated key, hence the
`find?` over the reversed list. -/
def priorityMapGet (ps : List PrioritizedCase) (tcid : Str) : Option (Str × Str) :=
  (ps.reverse.find? (fun p => p.test_case_id == tcid)).map (fun p => (p.priority, p.reasoning))

/-- The merge tail of `_prioritizeTestCases` (the decoded network response
`prioritized_cases` is passed as the `resp` parameter): every original
record is augmented with the matched priority/reasoning, or with the
default `{priority: 'P2', reasoning: 'N/A - Defaulted'}`. -/
def prioritizeTestCases (resp : List PrioritizedCase)
    (testCases : List RawTestCase) : List TestCase :=
  testCases.map (fun tc =>
    match priorityMapGet resp tc.id with
    | some pr =>
      { toRawTestCase := tc, priority := pr.1, priority_reasoning := pr.2 }
    | none =>
      { toRawTestCase := tc, priority := ("P2").data,
        priority_reasoning := ("N/A - Defaulted").data })

/-- One row of the traceability matrix response. -/
structure TraceabilityEntry where
  story_id : Str
  test_case_ids : List Str
deriving DecidableEq

/-- The traceability matrix (`{ matrix: TraceabilityEntry[] }`). -/
structure TraceabilityMatrix where
  matrix : List TraceabilityEntry
deriving DecidableEq

/-- The pure tail of `_generateTraceabilityMatrix`: the decoded response is
shape-checked (`Array.isArray(result.matrix)`, always true in the typed
model) and returned unchanged; the test cases only feed the request prompt. -/
def generateTraceabilityMatrix (resp : TraceabilityMatrix)
    (_testCases : List TestCase) : TraceabilityMatrix := resp

/-- The `Step` enum of `types.ts` (its members as used across `App.tsx` and
`videoProcessor.ts`). -/
inductive Step where
  | PRD_INPUT
  | ENHANCE_PRD
  | ANALYSIS_COMPLETE
  | GENERATING_PLAN
  | PRIORITIZING_PLAN
  | GENERATING_TRACEABILITY
  | PLAN_GENERATED
  | GENERATING_QA_DOCS
  | QA_DOCS_GENERATED
deriving DecidableEq

/-- The decoded plan-stage response (`TestPlan`): a markdown table blob and a
Gherkin blob. -/
structure TestPlan where
  markdown : Str
  gherkin : Str
deriving DecidableEq

/- The progress messages and error strings of `generateFullTestPlan`. -/

def msgGeneratingPlan : Str := ("Generating comprehensive test plan...").data
def msgPrioritizing : Str := ("Prioritizing test cases...").data
def msgTraceability : Str := ("Creating traceability matrix...").data
def failedParseDetail : Str :=
  ("Failed to parse any test cases from the generated markdown.").data
def pipelineErrorCtx : Str :=
  ("Failed to generate and prioritize test plan. ").data

/-- The observable events of one `generateFullTestPlan` run: the
`onProgress` invocations in order, and how many times each of the three
network-calling stages was entered. -/
structure PipelineLog where
  progress : List (Str × Step)
  planCalls : Nat
  prioritizationCalls : Nat
  traceabilityCalls : Nat
deriving DecidableEq

/-- `generateFullTestPlan`, with the three network responses passed as
parameters (`plan` for `_generateSingleTestPlan`, `presp` for
`_prioritizeTestCases`, `tresp` for `_generateTraceabilityMatrix`).  The
zero-parse throw is caught by the surrounding catch block and rewrapped
with the stage context, producing the rejected promise's message. -/
def generateFullTestPlan (plan : TestPlan) (presp : List PrioritizedCase)
    (tresp : TraceabilityMatrix) :
    Except Str (List TestCase × Str × TraceabilityMatrix) × PipelineLog :=
  let log1 : PipelineLog :=
    { progress := [(msgGeneratingPlan, Step.GENERATING_PLAN)],
      planCalls := 1, prioritizationCalls := 0, traceabilityCalls := 0 }
  let parsedTestCases := parseMarkdownTable plan.markdown
  if parsedTestCases.length = 0 then
    (Except.error (pipelineErrorCtx ++ failedParseDetail), log1)
  else
    let log2 : PipelineLog :=
      { log1 with
        progress := log1.progress ++ [(msgPrioritizing, Step.PRIORITIZING_PLAN)],
        prioritizationCalls := 1 }
    let prioritizedTestCases := prioritizeTestCases presp parsedTestCases
    let log3 : PipelineLog :=
      { log2 with
        progress := log2.progress ++ [(msgTraceability, Step.GENERATING_TRACEABILITY)],
        traceabilityCalls := 1 }
    (Except.ok (prioritizedTestCases, plan.gherkin,
      generateTraceabilityMatrix tresp prioritizedTestCases), log3)

/-- One part of a multimodal request: a text segment or an inline
binary-with-mimetype segment. -/
inductive Part where
  | text (t : Str)
  | inlineData (mimeType : Str) (data : Str)
deriving DecidableEq

/-- An uploaded attachment (`FileData`), as read by the prompt assembler. -/
structure FileData where
  name : Str
  type : Str
  dataUrl : Str
  frames : List Str
deriving DecidableEq

/-- The input bundle (`InputData`), as read by the prompt assembler. -/
structure InputData where
  prdText : Str
  figmaUrl : Str
  files : List FileData
deriving DecidableEq

/-- JavaScript `s.startsWith(pre)`. -/
def strStartsWith (pre s : Str) : Bool := List.isPrefixOf pre s

/-- JavaScript `dataUrl.split(',')[1]`: strip the data-URI prefix (a missing
second piece, `undefined` in JavaScript, is modelled as the empty string). -/
def stripDataUrl (dataUrl : Str) : Str := (splitOnChar ',' dataUrl).getD 1 []

def imageCaption (name : Str) : Str :=
  ("Analyze the following UI mockup/screenshot named \"").data ++ name ++ ("\":").data

def videoCaption (name : Str) : Str :=
  ("Analyze the following keyframes extracted from the video named \"").data
    ++ name ++ ("\":").data

/-- The parts pushed for one attachment by `buildMultimodalPrompt`'s
`forEach`: a caption text part and one inline part per image, or a caption
and one inline part per extracted frame for a video with frames. -/
def filePartsOf (file : FileData) : List Part :=
  if strStartsWith (("image/").data) file.type then
    [Part.text (imageCaption file.name),
     Part.inlineData file.type (stripDataUrl file.dataUrl)]
  else if strStartsWith (("video/").data) file.type && !file.frames.isEmpty then
    Part.text (videoCaption file.name) ::
      file.frames.map (fun f => Part.inlineData (("image/jpeg").data) (stripDataUrl f))
  else []

/-- The accumulated `textPrompt` string of `buildMultimodalPrompt`: the PRD
block and the Figma line are concatenated into one string (JavaScript
truthiness makes the empty string skip each `+=`). -/
def textPromptOf (inputs : InputData) : Str :=
  (if !inputs.prdText.isEmpty then
    ("Here is the PRD to analyze:\n\n---\n\n").data ++ inputs.prdText ++ ("\n\n").data
   else []) ++
  (if !inputs.figmaUrl.isEmpty then
    ("The following Figma design is also relevant: ").data ++ inputs.figmaUrl
      ++ ("\n\n").data
   else [])

/-- The trailing `additionalContext` part (pushed only when the optional
argument is supplied and truthy, i.e. non-empty). -/
def ctxParts (additionalContext : Option Str) : List Part :=
  match additionalContext with
  | some ctx => if !ctx.isEmpty then [Part.text ctx] else []
  | none => []

/-- `buildMultimodalPrompt`: a single leading text part holding the whole
accumulated `textPrompt` (when non-empty), then the attachment parts in
input order, then the optional trailing context part. -/
def buildMultimodalPrompt (inputs : InputData)
    (additionalContext : Option Str) : List Part :=
  (if !(textPromptOf inputs).isEmpty then [Part.text (textPromptOf inputs)] else [])
    ++ inputs.files.flatMap filePartsOf ++ ctxParts additionalContext

/-- A header-separator row as the spec describes it: a row consisting solely
of dashes, colons, and pipes (with surrounding whitespace).  Stated from the
spec's words, for comparison with the implementation's line filter. -/
def isSeparatorRowSpec (line : Str) : Bool :=
  !(trimStr line).isEmpty &&
    (trimStr line).all (fun c => c = '-' || c = ':' || c = '|' || isWhite c)

/-- The line selection as the spec states it: keep lines that begin (after
trimming) with a pipe delimiter and are not header-separator rows.  Stated
from the spec's words, for comparison with `lineSelect`. -/
def specLineSelect (markdown : Str) : List Str :=
  (splitOnChar '\n' (trimStr markdown)).filter
    (fun line => startsWithPipe (trimStr line) && !isSeparatorRowSpec line)

/- Machinery for stating header-order independence: well-formed markdown
tables built from logical cell contents. -/

/-- True when a string is non-empty and starts with a whitespace character. -/
def whiteHead (s : Str) : Bool :=
  match s with
  | c :: _ => isWhite c
  | [] => false

/-- A well-formed logical cell: non-blank, free of the pipe delimiter, of
newlines and of the `---` filter token, and carrying no leading or trailing
whitespace (the parser would trim it away anyway). -/
def cellOk (c : Str) : Bool :=
  !c.isEmpty && !decide ('|' ∈ c) && !decide ('\n' ∈ c) &&
    !whiteHead c && !whiteHead c.reverse && !includesStr tripleDash c

/-- One markdown table row built from its cell contents: `| c0 | c1 | … |`. -/
def mkRow (cs : List Str) : Str :=
  '|' :: cs.flatMap (fun c => ' ' :: (c ++ [' ', '|']))

/-- Join lines with newline characters. -/
def joinLines : List Str → Str
  | [] => []
  | [l] => l
  | l :: rest => l ++ '\n' :: joinLines rest

/-- A markdown table from a header-cell list and data-row cell lists. -/
def mkTable (header : List Str) (rows : List (List Str)) : Str :=
  joinLines (mkRow header :: rows.map mkRow)

/-- The eight required header names as a function of the canonical column
number (the order of the source's `headerMap`). -/
def reqHeader (i : Fin 8) : Str := requiredHeaders.get ⟨i.val, i.isLt⟩

/-- The record that a data row with logical cell contents `r` (in canonical
column order) produces. -/
def recordOf (r : Fin 8 → Str) : RawTestCase :=
  { id := r 0, type := r 1, summary := r 2, preconditions := r 3,
    steps := r 4, expectedResult := r 5, storyId := r 6, risk := r 7 }

/-- Dash-run scanner: starting with `k` consecutive dashes already seen, no
run of three consecutive dashes ever forms while scanning the string. -/
def noTriple : Nat → Str → Prop
  | _, [] => True
  | k, c :: rest =>
    if c = '-' then k + 1 < 3 ∧ noTriple (k + 1) rest else noTriple 0 rest

/-- The dash-run counter after scanning a string, starting from `k`. -/
def runAfter : Nat → Str → Nat
  | k, [] => k
  | k, c :: rest => runAfter (if c = '-' then k + 1 else 0) rest

/- Concrete inputs used by the claim-level witnesses and counterexamples. -/

/-- The canonical header line of the generated markdown table. -/
def exHeaderLine : Str :=
  ("| Test Case ID | Test Type | Summary | Preconditions | Test Steps | Expected Result | Story ID | Risk Type |").data

/-- A standard markdown separator row. -/
def exSeparatorLine : Str :=
  ("| --- | --- | --- | --- | --- | --- | --- | --- |").data

/-- A table whose single data row has a blank `Story ID` cell while every
other cell, in particular the following `Risk Type` cell, is populated. -/
def blankStoryIdTable : Str :=
  exHeaderLine ++ ('\n' :: exSeparatorLine) ++ ('\n' ::
    ("| TC-1 | Manual | Login works | None | Steps | Result |  | Low |").data)

/-- The end-to-end scenario's markdown blob. -/
def endToEndMarkdown : Str :=
  exHeaderLine ++ ('\n' :: exSeparatorLine) ++ ('\n' ::
    ("| TC-1 | Manual | Login works | None | Open app → Enter creds → Click login | Redirect to dashboard | US-101 | Low |").data)

/-- The record the end-to-end scenario expects from the parser. -/
def endToEndRecord : RawTestCase :=
  { id := ("TC-1").data, type := ("Manual").data,
    summary := ("Login works").data, preconditions := ("None").data,
    steps := ("Open app → Enter creds → Click login").data,
    expectedResult := ("Redirect to dashboard").data,
    storyId := ("US-101").data, risk := ("Low").data }

/-- The end-to-end scenario's prioritization response. -/
def endToEndResp : List PrioritizedCase :=
  [{ test_case_id := ("TC-1").data, priority := ("P1").data,
     reasoning := ("Auth is critical").data }]

/-- The end-to-end scenario's traceability response. -/
def endToEndTrace : TraceabilityMatrix :=
  { matrix := [{ story_id := ("US-101").data,
                 test_case_ids := [("TC-1").data] }] }

/-- A two-line table whose data row contains a dash run inside a cell. -/
def dashCellTable : Str :=
  ("| a | b |").data ++ ('\n' :: ("| TC-9 | x --- y |").data)

/-- An input bundle with both free text and a Figma URL, and no files. -/
def promptInputs : InputData :=
  { prdText := ("The system shall log users in.").data,
    figmaUrl := ("https://figma.com/file/abc").data, files := [] }

/-- A record whose non-identity fields are filled with the sentinel. -/
def simpleRaw (i : Str) : RawTestCase :=
  { id := i, type := strNA, summary := strNA, preconditions := strNA,
    steps := strNA, expectedResult := strNA, storyId := strNA, risk := strNA }

/-- A one-entry prioritization response used by witnesses. -/
def wResp : List PrioritizedCase :=
  [{ test_case_id := ("TC-1").data, priority := ("P1").data,
     reasoning := ("critical path").data }]

/-- Concrete logical cell contents for the header-permutation witness. -/
def wCellList : List Str :=
  [("TC-1").data, ("Manual").data, ("Login").data, ("NoPre").data,
   ("Steps").data, ("Result").data, ("US-1").data, ("Low").data]

/-- The witness row as a function of the canonical column number. -/
def wCells (i : Fin 8) : Str := wCellList.get ⟨i.val, i.isLt⟩

/-- A two-line table whose header row lacks every required column name. -/
def missingHeaderTable : Str :=
  ("| A | B |").data ++ ('\n' :: ("| 1 | 2 |").data)

set_option maxRecDepth 100000

/- General helper lemmas. -/

theorem startsWithPipe_iff (s : Str) :
    startsWithPipe s = true ↔ s.head? = some '|' := by
  cases s with
  | nil => simp [startsWithPipe]
  | cons c rest => simp [startsWithPipe]

theorem idxOf?_eq_none {α : Type} [DecidableEq α] (a : α) (l : List α)
    (h : a ∉ l) : idxOf? a l = none := by
  induction l with
  | nil => rfl
  | cons x xs ih =>
    simp only [List.mem_cons, not_or] at h
    simp [idxOf?, Ne.symm h.1, ih h.2]

theorem substr_middle (a b c : Str) : b <:+: (a ++ b ++ c) := ⟨a, c, rfl⟩

theorem substr_growR (x a b : Str) (h : x <:+: a) : x <:+: a ++ b := by
  rcases h with ⟨s, t, rfl⟩
  exact ⟨s, t ++ b, by simp⟩

theorem substr_growL (x a b : Str) (h : x <:+: b) : x <:+: a ++ b := by
  rcases h with ⟨s, t, rfl⟩
  exact ⟨a ++ s, t, by simp⟩

theorem find?_eq_of_nodup_ids (l : List PrioritizedCase) (p : PrioritizedCase)
    (hnd : (l.map (fun q => q.test_case_id)).Nodup) (hp : p ∈ l) :
    l.find? (fun q => q.test_case_id == p.test_case_id) = some p := by
  induction l with
  | nil => simp at hp
  | cons q tl ih =>
    simp only [List.map_cons, List.nodup_cons] at hnd
    rcases List.mem_cons.mp hp with rfl | hp'
    · simp [List.find?_cons_of_pos]
    · have hne : (q.test_case_id == p.test_case_id) = false := by
        rw [beq_eq_false_iff_ne]
        intro he
        exact hnd.1 (he ▸ List.mem_map_of_mem _ hp')
      rw [List.find?_cons_of_neg _ (by simp [hne]), ih hnd.2 hp']

theorem priorityMapGet_eq (resp : List PrioritizedCase) (p : PrioritizedCase)
    (hnd : (resp.map (fun q => q.test_case_id)).Nodup) (hp : p ∈ resp) :
    priorityMapGet resp p.test_case_id = some (p.priority, p.reasoning) := by
  unfold priorityMapGet
  rw [find?_eq_of_nodup_ids resp.reverse p ?_ ?_]
  · rfl
  · rw [List.map_reverse]
    exact List.nodup_reverse.mpr hnd
  · exact List.mem_reverse.mpr hp

theorem priorityMapGet_eq_none (resp : List PrioritizedCase) (tcid : Str)
    (h : ∀ p ∈ resp, p.test_case_id ≠ tcid) :
    priorityMapGet resp tcid = none := by
  unfold priorityMapGet
  rw [List.find?_eq_none.mpr]
  · rfl
  · intro p hp
    simpa using h p (List.mem_reverse.mp hp)

/- Helper lemmas about the string primitives on constructed tables. -/

theorem splitOnChar_not_mem (c : Char) (a : Str) (h : c ∉ a) :
    splitOnChar c a = [a] := by
  induction a with
  | nil => rfl
  | cons x xs ih =>
    simp only [List.mem_cons, not_or] at h
    rw [splitOnChar, if_neg (fun he => h.1 he.symm), ih h.2]

theorem splitOnChar_append_cons (c : Char) (a b : Str) (h : c ∉ a) :
    splitOnChar c (a ++ c :: b) = a :: splitOnChar c b := by
  induction a with
  | nil => simp [splitOnChar]
  | cons x xs ih =>
    simp only [List.mem_cons, not_or] at h
    rw [List.cons_append, splitOnChar, if_neg (fun he => h.1 he.symm), ih h.2]

theorem joinLines_cons₂ (l l2 : Str) (rest : List Str) :
    joinLines (l :: l2 :: rest) = l ++ '\n' :: joinLines (l2 :: rest) := rfl

theorem splitOnChar_joinLines (ls : List Str) (hne : ls ≠ [])
    (h : ∀ l ∈ ls, ('\n' : Char) ∉ l) :
    splitOnChar '\n' (joinLines ls) = ls := by
  induction ls with
  | nil => cases hne rfl
  | cons l rest ih =>
    cases rest with
    | nil => exact splitOnChar_not_mem _ _ (h l (List.mem_cons_self _ _))
    | cons l2 rest2 =>
      rw [joinLines_cons₂,
        splitOnChar_append_cons _ _ _ (h l (List.mem_cons_self _ _)),
        ih (List.cons_ne_nil _ _) (fun x hx => h x (List.mem_cons_of_mem _ hx))]

theorem trimStr_eq_self (s : Str) (h1 : whiteHead s = false)
    (h2 : whiteHead s.reverse = false) : trimStr s = s := by
  have d1 : s.dropWhile isWhite = s := by
    cases s with
    | nil => rfl
    | cons c r =>
      rw [List.dropWhile_cons_of_neg]
      simpa [whiteHead] using h1
  have d2 : s.reverse.dropWhile isWhite = s.reverse := by
    cases hr : s.reverse with
    | nil => rfl
    | cons c r =>
      rw [List.dropWhile_cons_of_neg]
      rw [hr] at h2
      simpa [whiteHead] using h2
  rw [trimStr, d1, d2, List.reverse_reverse]

theorem whiteHead_append_left (a b : Str) (ha : a ≠ []) :
    whiteHead (a ++ b) = whiteHead a := by
  cases a with
  | nil => cases ha rfl
  | cons c r => rfl

theorem mkRow_ends_pipe (cs : List Str) : ∃ u, mkRow cs = u ++ ['|'] := by
  induction cs with
  | nil => exact ⟨[], rfl⟩
  | cons a cs' ih =>
    rcases ih with ⟨u', hu'⟩
    unfold mkRow at hu' ⊢
    rw [List.flatMap_cons]
    cases u' with
    | nil =>
      simp only [List.nil_append] at hu'
      have hfl : cs'.flatMap (fun c => ' ' :: (c ++ [' ', '|'])) = [] := by
        injection hu'
      rw [hfl, List.append_nil]
      exact ⟨'|' :: ' ' :: (a ++ [' ']), by simp⟩
    | cons v u'' =>
      rw [List.cons_append] at hu'
      injection hu' with hv hfl
      rw [hfl]
      exact ⟨'|' :: ((' ' :: (a ++ [' ', '|'])) ++ u''), by simp⟩

theorem startsWithPipe_mkRow (cs : List Str) :
    startsWithPipe (mkRow cs) = true := rfl

theorem whiteHead_mkRow (cs : List Str) : whiteHead (mkRow cs) = false := rfl

theorem whiteHead_mkRow_rev (cs : List Str) :
    whiteHead (mkRow cs).reverse = false := by
  rcases mkRow_ends_pipe cs with ⟨u, hu⟩
  rw [hu, List.reverse_append]
  rfl

theorem trimStr_mkRow (cs : List Str) : trimStr (mkRow cs) = mkRow cs :=
  trimStr_eq_self _ (whiteHead_mkRow cs) (whiteHead_mkRow_rev cs)

theorem mkRow_ne_nil (cs : List Str) : mkRow cs ≠ [] := by
  unfold mkRow
  simp

theorem mem_mkRow (x : Char) (cs : List Str) (h : x ∈ mkRow cs) :
    x = '|' ∨ x = ' ' ∨ ∃ c ∈ cs, x ∈ c := by
  unfold mkRow at h
  rcases List.mem_cons.mp h with rfl | h2
  · exact Or.inl rfl
  · rcases List.mem_flatMap.mp h2 with ⟨c, hc, hx⟩
    rcases List.mem_cons.mp hx with rfl | hx2
    · exact Or.inr (Or.inl rfl)
    · rcases List.mem_append.mp hx2 with hx3 | hx3
      · exact Or.inr (Or.inr ⟨c, hc, hx3⟩)
      · rcases List.mem_cons.mp hx3 with rfl | hx4
        · exact Or.inr (Or.inl rfl)
        · rcases List.mem_cons.mp hx4 with rfl | hx5
          · exact Or.inl rfl
          · simp at hx5

theorem noTriple_append (k : Nat) (a b : Str) :
    noTriple k (a ++ b) ↔ noTriple k a ∧ noTriple (runAfter k a) b := by
  induction a generalizing k with
  | nil => simp [noTriple, runAfter]
  | cons c r ih =>
    by_cases hc : c = '-' <;>
      simp [noTriple, runAfter, hc, ih, and_assoc]

theorem not_noTriple_of_infix (l : Str) (k : Nat) (h : tripleDash <:+: l) :
    ¬ noTriple k l := by
  rcases h with ⟨u, v, huv⟩
  intro hn
  rw [← huv, List.append_assoc, noTriple_append] at hn
  have h2 := hn.2
  have hsh : tripleDash ++ v = '-' :: '-' :: '-' :: v := rfl
  rw [hsh] at h2
  simp only [noTriple, if_pos] at h2
  omega

theorem infix_of_not_noTriple (l : Str) : ∀ (k : Nat), k < 3 → ¬ noTriple k l →
    tripleDash <:+: (List.replicate k '-' ++ l) := by
  induction l with
  | nil =>
    intro k hk hn
    exact absurd trivial hn
  | cons c r ih =>
    intro k hk hn
    by_cases hc : c = '-'
    · subst hc
      by_cases h3 : k + 1 < 3
      · have hnr : ¬ noTriple (k + 1) r := by
          intro hr
          exact hn (by simp [noTriple]; exact ⟨h3, hr⟩)
        have heq : List.replicate k '-' ++ '-' :: r
            = List.replicate (k + 1) '-' ++ r := by
          rw [List.replicate_succ', List.append_assoc]
          rfl
        rw [heq]
        exact ih (k + 1) h3 hnr
      · have hk2 : k = 2 := by omega
        subst hk2
        exact ⟨[], r, rfl⟩
    · have hnr : ¬ noTriple 0 r := by
        intro hr
        exact hn (by simpa [noTriple, hc] using hr)
      rcases ih 0 (by omega) hnr with ⟨s, t, hst⟩
      simp only [List.replicate_zero, List.nil_append] at hst
      exact ⟨List.replicate k '-' ++ c :: s, t, by rw [← hst]; simp⟩

theorem cellOk_spec (c : Str) (h : cellOk c = true) :
    c ≠ [] ∧ ('|' : Char) ∉ c ∧ ('\n' : Char) ∉ c ∧ whiteHead c = false ∧
      whiteHead c.reverse = false ∧ ¬ (tripleDash <:+: c) := by
  simp only [cellOk, Bool.and_eq_true, Bool.not_eq_true', decide_eq_false_iff_not,
    includesStr, List.isEmpty_eq_false_iff_exists_mem] at h
  obtain ⟨⟨⟨⟨⟨h1, h2⟩, h3⟩, h4⟩, h5⟩, h6⟩ := h
  refine ⟨?_, h2, h3, h4, h5, h6⟩
  rcases h1 with ⟨x, hx⟩
  intro he
  rw [he] at hx
  simp at hx

theorem noTriple_of_cellOk (c : Str) (h : cellOk c = true) : noTriple 0 c := by
  by_contra hn
  have hin := infix_of_not_noTriple c 0 (by omega) hn
  simp only [List.replicate_zero, List.nil_append] at hin
  exact (cellOk_spec c h).2.2.2.2.2 hin

theorem noTriple_chunk (k : Nat) (c : Str) (hc : noTriple 0 c) :
    noTriple k (' ' :: (c ++ [' ', '|'])) := by
  have hs : (' ' : Char) = '-' ↔ False := by simp
  simp only [noTriple, if_neg (by simp : ¬ (' ' : Char) = '-')]
  rw [noTriple_append]
  refine ⟨hc, ?_⟩
  simp [noTriple]

theorem runAfter_append (k : Nat) (a b : Str) :
    runAfter k (a ++ b) = runAfter (runAfter k a) b := by
  induction a generalizing k with
  | nil => simp [runAfter]
  | cons c r ih =>
    simp only [List.cons_append, runAfter]
    exact ih _

theorem runAfter_chunk (k : Nat) (c : Str) :
    runAfter k (' ' :: (c ++ [' ', '|'])) = 0 := by
  simp only [runAfter, if_neg (by simp : ¬ (' ' : Char) = '-')]
  rw [runAfter_append]
  simp [runAfter]

theorem noTriple_mkRow (cs : List Str) (h : ∀ c ∈ cs, noTriple 0 c) :
    noTriple 0 (mkRow cs) := by
  unfold mkRow
  simp only [noTriple, if_neg (by simp : ¬ ('|' : Char) = '-')]
  induction cs with
  | nil => trivial
  | cons c cs' ih =>
    rw [List.flatMap_cons, noTriple_append, runAfter_chunk]
    exact ⟨noTriple_chunk 0 c (h c (List.mem_cons_self _ _)),
      ih (fun x hx => h x (List.mem_cons_of_mem _ hx))⟩

theorem includesStr_mkRow_false (cs : List Str) (h : ∀ c ∈ cs, cellOk c = true) :
    includesStr tripleDash (mkRow cs) = false := by
  rw [includesStr, decide_eq_false_iff_not]
  intro hin
  exact not_noTriple_of_infix _ 0 hin
    (noTriple_mkRow cs (fun c hc => noTriple_of_cellOk c (h c hc)))

theorem joinLines_ends_pipe (ls : List Str) (hne : ls ≠ [])
    (h : ∀ l ∈ ls, ∃ u, l = u ++ ['|']) : ∃ w, joinLines ls = w ++ ['|'] := by
  induction ls with
  | nil => cases hne rfl
  | cons l rest ih =>
    cases rest with
    | nil => exact h l (List.mem_cons_self _ _)
    | cons l2 r2 =>
      rcases ih (List.cons_ne_nil _ _)
          (fun x hx => h x (List.mem_cons_of_mem _ hx)) with ⟨w, hw⟩
      rw [joinLines_cons₂, hw]
      exact ⟨l ++ '\n' :: w, by simp⟩

theorem whiteHead_rev_of_ends_pipe (s : Str) (h : ∃ u, s = u ++ ['|']) :
    whiteHead s.reverse = false := by
  rcases h with ⟨u, rfl⟩
  rw [List.reverse_append]
  rfl

theorem newline_not_mem_mkRow (cs : List Str) (h : ∀ c ∈ cs, cellOk c = true) :
    ('\n' : Char) ∉ mkRow cs := by
  intro hm
  rcases mem_mkRow _ _ hm with h1 | h1 | ⟨c, hc, hx⟩
  · simp at h1
  · simp at h1
  · exact (cellOk_spec c (h c hc)).2.2.1 hx

theorem trimStr_mkTable (header : List Str) (rows : List (List Str)) :
    trimStr (mkTable header rows) = mkTable header rows := by
  unfold mkTable
  apply trimStr_eq_self
  · cases rows with
    | nil => exact whiteHead_mkRow header
    | cons r rs =>
      rw [List.map_cons, joinLines_cons₂,
        whiteHead_append_left _ _ (mkRow_ne_nil header)]
      exact whiteHead_mkRow header
  · apply whiteHead_rev_of_ends_pipe
    apply joinLines_ends_pipe _ (List.cons_ne_nil _ _)
    intro l hl
    rcases List.mem_cons.mp hl with rfl | hl2
    · exact mkRow_ends_pipe header
    · rcases List.mem_map.mp hl2 with ⟨cs, _, rfl⟩
      exact mkRow_ends_pipe cs

theorem lineSelect_mkTable (header : List Str) (rows : List (List Str))
    (hh : ∀ c ∈ header, cellOk c = true)
    (hr : ∀ r ∈ rows, ∀ c ∈ r, cellOk c = true) :
    lineSelect (mkTable header rows) = mkRow header :: rows.map mkRow := by
  have hline : ∀ l ∈ mkRow header :: rows.map mkRow,
      ∃ cs, l = mkRow cs ∧ ∀ c ∈ cs, cellOk c = true := by
    intro l hl
    rcases List.mem_cons.mp hl with rfl | hl2
    · exact ⟨header, rfl, hh⟩
    · rcases List.mem_map.mp hl2 with ⟨cs, hcs, rfl⟩
      exact ⟨cs, rfl, hr cs hcs⟩
  unfold lineSelect
  rw [show trimStr (mkTable header rows) = mkTable header rows from
    trimStr_mkTable header rows]
  unfold mkTable
  rw [splitOnChar_joinLines _ (List.cons_ne_nil _ _) ?hnl]
  case hnl =>
    intro l hl
    rcases hline l hl with ⟨cs, rfl, hcs⟩
    exact newline_not_mem_mkRow cs hcs
  rw [List.filter_eq_self.mpr]
  intro l hl
  rcases hline l hl with ⟨cs, rfl, hcs⟩
  rw [trimStr_mkRow, startsWithPipe_mkRow, includesStr_mkRow_false cs hcs]
  rfl

theorem trimStr_pad (c : Str) (hne : c ≠ []) (h1 : whiteHead c = false)
    (h2 : whiteHead c.reverse = false) :
    trimStr (' ' :: (c ++ [' '])) = c := by
  unfold trimStr
  rw [List.dropWhile_cons_of_pos (by decide : isWhite ' ' = true)]
  cases c with
  | nil => cases hne rfl
  | cons d c' =>
    rw [List.cons_append,
      List.dropWhile_cons_of_neg (by simpa [whiteHead] using h1)]
    have hrev : ((d :: c') ++ [' ']).reverse = ' ' :: (d :: c').reverse := by
      simp
    rw [← List.cons_append, hrev,
      List.dropWhile_cons_of_pos (by decide : isWhite ' ' = true)]
    cases hcr : (d :: c').reverse with
    | nil => simp at hcr
    | cons e r' =>
      rw [List.dropWhile_cons_of_neg]
      · rw [← hcr, List.reverse_reverse]
      · rw [hcr] at h2
        simpa [whiteHead] using h2

theorem splitOnChar_flatMapRow (cs : List Str)
    (h : ∀ c ∈ cs, ('|' : Char) ∉ c) :
    splitOnChar '|' (cs.flatMap (fun c => ' ' :: (c ++ [' ', '|'])))
      = cs.map (fun c => ' ' :: (c ++ [' '])) ++ [[]] := by
  induction cs with
  | nil => rfl
  | cons c cs' ih =>
    rw [List.flatMap_cons]
    have hshape : (' ' :: (c ++ [' ', '|']))
          ++ cs'.flatMap (fun x => ' ' :: (x ++ [' ', '|']))
        = (' ' :: (c ++ [' ']))
          ++ '|' :: cs'.flatMap (fun x => ' ' :: (x ++ [' ', '|'])) := by
      simp
    have hnm : ('|' : Char) ∉ ' ' :: (c ++ [' ']) := by
      intro hmem
      rcases List.mem_cons.mp hmem with he | hmem2
      · simp at he
      · rcases List.mem_append.mp hmem2 with h3 | h3
        · exact h c (List.mem_cons_self _ _) h3
        · simp at h3
    rw [hshape, splitOnChar_append_cons _ _ _ hnm,
      ih (fun x hx => h x (List.mem_cons_of_mem _ hx))]
    rfl

theorem splitCells_mkRow (cs : List Str) (h : ∀ c ∈ cs, cellOk c = true) :
    splitCells (mkRow cs) = cs := by
  unfold splitCells mkRow
  have hsp : splitOnChar '|'
        ('|' :: cs.flatMap (fun c => ' ' :: (c ++ [' ', '|'])))
      = [] :: splitOnChar '|' (cs.flatMap (fun c => ' ' :: (c ++ [' ', '|']))) := by
    simp [splitOnChar]
  rw [hsp, splitOnChar_flatMapRow cs (fun c hc => (cellOk_spec c (h c hc)).2.1)]
  rw [List.map_cons, List.map_append, List.map_map]
  have hmap : cs.map (trimStr ∘ fun c => ' ' :: (c ++ [' '])) = cs := by
    have hcg : ∀ c ∈ cs, (trimStr ∘ fun c => ' ' :: (c ++ [' '])) c = id c := by
      intro c hc
      rcases cellOk_spec c (h c hc) with ⟨h1, _, _, h4, h5, _⟩
      exact trimStr_pad c h1 h4 h5
    rw [List.map_congr_left hcg, List.map_id]
  have ht0 : trimStr ([] : Str) = [] := by
    unfold trimStr
    rfl
  rw [ht0, hmap]
  have hfe : List.filter (fun s => !s.isEmpty) cs = cs :=
    List.filter_eq_self.mpr (fun c hc => by
      rcases cellOk_spec c (h c hc) with ⟨h1, _⟩
      cases c with
      | nil => cases h1 rfl
      | cons d c2 => rfl)
  simp [List.filter_cons, List.filter_append, hfe, ht0]

theorem idxOf?_map_inj {α β : Type} [DecidableEq α] [DecidableEq β]
    (g : α → β) (hg : Function.Injective g) (a : α) (l : List α) :
    idxOf? (g a) (l.map g) = idxOf? a l := by
  induction l with
  | nil => rfl
  | cons x xs ih =>
    by_cases hx : x = a
    · subst hx
      simp [idxOf?]
    · have hgx : g x ≠ g a := fun he => hx (hg he)
      simp [idxOf?, hx, hgx, ih]

theorem idxOf?_getElem? {α : Type} [DecidableEq α] (a : α) (l : List α)
    (i : Nat) (h : idxOf? a l = some i) : l[i]? = some a := by
  induction l generalizing i with
  | nil => simp [idxOf?] at h
  | cons x xs ih =>
    by_cases hx : x = a
    · subst hx
      simp [idxOf?] at h
      subst h
      simp
    · simp only [idxOf?, if_neg hx] at h
      rcases Option.map_eq_some'.mp h with ⟨i', hi', rfl⟩
      simpa using ih i' hi'

theorem idxOf?_isSome_of_mem {α : Type} [DecidableEq α] (a : α) (l : List α)
    (h : a ∈ l) : ∃ i, idxOf? a l = some i := by
  induction l with
  | nil => simp at h
  | cons x xs ih =>
    by_cases hx : x = a
    · exact ⟨0, by simp [idxOf?, hx]⟩
    · have h2 : a ∈ xs := by
        rcases List.mem_cons.mp h with rfl | h2
        · cases hx rfl
        · exact h2
      rcases ih h2 with ⟨i, hi⟩
      exact ⟨i + 1, by simp [idxOf?, hx, hi]⟩

theorem cellAt_resolved (p : List (Fin 8)) (r : Fin 8 → Str) (j : Fin 8)
    (i : Nat) (hidx : idxOf? j p = some i) (hok : cellOk (r j) = true)
    (dflt : Str) : cellAt (p.map r) i dflt = r j := by
  unfold cellAt
  rw [List.get?_eq_getElem?, List.getElem?_map, idxOf?_getElem? j p i hidx]
  have hne : (r j).isEmpty = false := by
    rcases cellOk_spec _ hok with ⟨h1, _⟩
    cases hrj : r j with
    | nil => cases h1 hrj
    | cons d c2 => rfl
  simp [hne]

/- Claim-level theorems. -/

/-- C1: for every list of parsed records and every prioritization response,
the merge returns a list of the input's length whose records keep the input
order, underlying fields and ids — nothing is dropped, duplicated or
reordered. -/
theorem prioritization_totality (resp : List PrioritizedCase)
    (tcs : List RawTestCase) :
    (prioritizeTestCases resp tcs).length = tcs.length ∧
    (prioritizeTestCases resp tcs).map (fun t => t.toRawTestCase) = tcs ∧
    (prioritizeTestCases resp tcs).map (fun t => t.id) =
      tcs.map (fun r => r.id) := by
  have h2 : (prioritizeTestCases resp tcs).map (fun t => t.toRawTestCase) = tcs := by
    induction tcs with
    | nil => rfl
    | cons tc tl ih =>
      simp only [prioritizeTestCases, List.map_cons] at ih ⊢
      rw [List.cons_eq_cons]
      refine ⟨?_, ih⟩
      cases priorityMapGet resp tc.id <;> rfl
  refine ⟨?_, h2, ?_⟩
  · simp [prioritizeTestCases]
  · have hcomp : (fun t : TestCase => t.id) =
        (fun r : RawTestCase => r.id) ∘ (fun t : TestCase => t.toRawTestCase) := rfl
    rw [hcomp, ← List.map_map, h2]

/-- C2: when the plan stage's markdown parses to zero records, the pipeline
rejects with a message containing "Failed to parse any test cases", the
prioritization and traceability stages are never entered, and the only
progress event is the plan-generation one (the prioritization callback
never fires). -/
theorem pipeline_fail_fast (plan : TestPlan) (presp : List PrioritizedCase)
    (tresp : TraceabilityMatrix)
    (h : parseMarkdownTable plan.markdown = []) :
    (generateFullTestPlan plan presp tresp).1 =
        Except.error (pipelineErrorCtx ++ failedParseDetail) ∧
    ("Failed to parse any test cases").data <:+:
        (pipelineErrorCtx ++ failedParseDetail) ∧
    (generateFullTestPlan plan presp tresp).2.prioritizationCalls = 0 ∧
    (generateFullTestPlan plan presp tresp).2.traceabilityCalls = 0 ∧
    (generateFullTestPlan plan presp tresp).2.progress =
        [(msgGeneratingPlan, Step.GENERATING_PLAN)] := by
  refine ⟨?_, by decide, ?_, ?_, ?_⟩ <;> simp [generateFullTestPlan, h]

/-- Witness for C2 at the empty markdown blob. -/
theorem pipeline_fail_fast_witness :
    (generateFullTestPlan ⟨[], []⟩ [] ⟨[]⟩).1 =
        Except.error (pipelineErrorCtx ++ failedParseDetail) ∧
    ("Failed to parse any test cases").data <:+:
        (pipelineErrorCtx ++ failedParseDetail) ∧
    (generateFullTestPlan ⟨[], []⟩ [] ⟨[]⟩).2.prioritizationCalls = 0 ∧
    (generateFullTestPlan ⟨[], []⟩ [] ⟨[]⟩).2.traceabilityCalls = 0 ∧
    (generateFullTestPlan ⟨[], []⟩ [] ⟨[]⟩).2.progress =
        [(msgGeneratingPlan, Step.GENERATING_PLAN)] :=
  pipeline_fail_fast ⟨[], []⟩ [] ⟨[]⟩ (by decide)

/-- C3: whenever the resolved header row misses one of the eight required
column names, the parser returns the empty list (and, being a total
function, it never throws). -/
theorem parser_abort_missing_header (markdown : Str)
    (h : ∃ n ∈ requiredHeaders, n ∉ splitCells ((lineSelect markdown).headD [])) :
    parseMarkdownTable markdown = [] := by
  unfold parseMarkdownTable
  rcases hls : lineSelect markdown with _ | ⟨hl, _ | ⟨r0, rest⟩⟩ <;> simp only [hls]
  rw [hls] at h
  simp only [List.headD_cons] at h
  obtain ⟨n, hn, hnot⟩ := h
  refine if_pos ?_
  simp only [requiredHeaders, List.mem_cons, List.not_mem_nil, or_false] at hn
  rcases hn with rfl | rfl | rfl | rfl | rfl | rfl | rfl | rfl
  · exact Or.inl (idxOf?_eq_none _ _ hnot)
  · exact Or.inr (Or.inl (idxOf?_eq_none _ _ hnot))
  · exact Or.inr (Or.inr (Or.inl (idxOf?_eq_none _ _ hnot)))
  · exact Or.inr (Or.inr (Or.inr (Or.inl (idxOf?_eq_none _ _ hnot))))
  · exact Or.inr (Or.inr (Or.inr (Or.inr (Or.inl (idxOf?_eq_none _ _ hnot)))))
  · exact Or.inr (Or.inr (Or.inr (Or.inr (Or.inr (Or.inl (idxOf?_eq_none _ _ hnot))))))
  · exact Or.inr (Or.inr (Or.inr (Or.inr (Or.inr (Or.inr (Or.inl (idxOf?_eq_none _ _ hnot)))))))
  · exact Or.inr (Or.inr (Or.inr (Or.inr (Or.inr (Or.inr (Or.inr (idxOf?_eq_none _ _ hnot)))))))

/-- Witness for C3 at a two-line table lacking every required header. -/
theorem parser_abort_missing_header_witness :
    (∃ n ∈ requiredHeaders,
        n ∉ splitCells ((lineSelect missingHeaderTable).headD [])) ∧
    parseMarkdownTable missingHeaderTable = [] :=
  ⟨by decide, parser_abort_missing_header missingHeaderTable (by decide)⟩

/-- C5 evaluation: on a row whose `Story ID` cell is blank and whose other
cells are populated, the parser's `filter(Boolean)` removes the blank cell,
shifting every later column left — the record's `storyId` becomes the
`Risk Type` cell's value "Low" (not the "N/A" sentinel the claim and the
`|| 'N/A'` fallback intend) and `risk` becomes "N/A". -/
theorem parser_blank_storyId_misalignment :
    (parseMarkdownTable blankStoryIdTable).map (fun r => (r.storyId, r.risk))
      = [(("Low").data, strNA)] := by decide

/-- C6: a record whose id is absent from the prioritization response gets
priority "P2" and reasoning "N/A - Defaulted"; a record whose id matches a
response entry (ids unambiguous) gets exactly that entry's priority and
reasoning. -/
theorem prioritization_default_and_match (resp : List PrioritizedCase)
    (tcs : List RawTestCase) (i : Nat) (tc : RawTestCase)
    (htc : tcs[i]? = some tc) :
    ((∀ p ∈ resp, p.test_case_id ≠ tc.id) →
      (prioritizeTestCases resp tcs)[i]? =
        some { toRawTestCase := tc, priority := ("P2").data,
               priority_reasoning := ("N/A - Defaulted").data }) ∧
    (∀ p ∈ resp, p.test_case_id = tc.id →
      (resp.map (fun q => q.test_case_id)).Nodup →
      (prioritizeTestCases resp tcs)[i]? =
        some { toRawTestCase := tc, priority := p.priority,
               priority_reasoning := p.reasoning }) := by
  constructor
  · intro hno
    unfold prioritizeTestCases
    rw [List.getElem?_map, htc]
    simp [priorityMapGet_eq_none resp tc.id hno]
  · intro p hp hid hnd
    have hm := priorityMapGet_eq resp p hnd hp
    rw [hid] at hm
    unfold prioritizeTestCases
    rw [List.getElem?_map, htc]
    simp [hm]

/-- Witness for C6: one unmatched and one matched record. -/
theorem prioritization_default_and_match_witness :
    (prioritizeTestCases wResp
        [simpleRaw (("TC-2").data), simpleRaw (("TC-1").data)])[0]? =
      some { toRawTestCase := simpleRaw (("TC-2").data), priority := ("P2").data,
             priority_reasoning := ("N/A - Defaulted").data } ∧
    (prioritizeTestCases wResp
        [simpleRaw (("TC-2").data), simpleRaw (("TC-1").data)])[1]? =
      some { toRawTestCase := simpleRaw (("TC-1").data),
             priority := ("P1").data,
             priority_reasoning := ("critical path").data } :=
  ⟨(prioritization_default_and_match wResp _ 0 _ (by decide)).1 (by decide),
   (prioritization_default_and_match wResp _ 1 _ (by decide)).2
      { test_case_id := ("TC-1").data, priority := ("P1").data,
        reasoning := ("critical path").data }
      (by decide) (by decide) (by decide)⟩

/-- C7: the end-to-end scenario — the concrete three-line blob parses to the
one expected record, merging with the concrete prioritization response gives
priority "P1" with the response's reasoning, and the traceability stage over
the concrete response yields exactly one entry. -/
theorem end_to_end_scenario :
    parseMarkdownTable endToEndMarkdown = [endToEndRecord] ∧
    prioritizeTestCases endToEndResp [endToEndRecord] =
      [{ toRawTestCase := endToEndRecord, priority := ("P1").data,
         priority_reasoning := ("Auth is critical").data }] ∧
    (generateTraceabilityMatrix endToEndTrace
        (prioritizeTestCases endToEndResp
          (parseMarkdownTable endToEndMarkdown))).matrix.length = 1 :=
  ⟨by decide, by decide, by decide⟩

/-- C8 counterexample: the pipe-prefixed data row `| TC-9 | x --- y |` is no
header-separator row (it holds letters), so the claimed selection keeps it,
yet the implementation's `includes('---')` filter drops it. -/
theorem parser_line_selection_counterexample :
    (("| TC-9 | x --- y |").data ∈ specLineSelect dashCellTable) ∧
    (("| TC-9 | x --- y |").data ∉ lineSelect dashCellTable) := by
  constructor <;> decide

/-- C8 amended: the parser's line selection keeps exactly the lines of the
trimmed input that begin (after trimming) with a pipe and do not contain the
substring "---" anywhere — so a data row with a three-dash run inside a cell
is dropped. -/
theorem parser_line_selection_amended (markdown : Str) (l : Str) :
    l ∈ lineSelect markdown ↔
      l ∈ splitOnChar '\n' (trimStr markdown) ∧
        (trimStr l).head? = some '|' ∧ ¬ (tripleDash <:+: l) := by
  simp only [lineSelect, List.mem_filter, Bool.and_eq_true, startsWithPipe_iff,
    includesStr, Bool.not_eq_true', decide_eq_false_iff_not]

/-- C9 counterexample: with non-empty free text and Figma URL and no
attachments, the assembled prompt is a single text part — there is no
second, distinct text part for the design reference. -/
theorem prompt_second_text_part_counterexample :
    buildMultimodalPrompt promptInputs none =
      [Part.text (textPromptOf promptInputs)] ∧
    (buildMultimodalPrompt promptInputs none).length = 1 ∧
    (buildMultimodalPrompt promptInputs none).get? 1 = none :=
  ⟨by decide, by decide, by decide⟩

/-- C9 amended: with non-empty free text and Figma URL the prompt begins
with one text part whose content is exactly the PRD block followed by the
Figma line — the free text comes first and the design reference is named
after it, inside the same part — followed by the attachment parts and the
optional context part. -/
theorem prompt_leading_text_part (inputs : InputData) (ctx : Option Str)
    (h1 : inputs.prdText ≠ []) (h2 : inputs.figmaUrl ≠ []) :
    ∃ t, buildMultimodalPrompt inputs ctx =
        Part.text t :: (inputs.files.flatMap filePartsOf ++ ctxParts ctx) ∧
      t = ("Here is the PRD to analyze:\n\n---\n\n").data ++ inputs.prdText
          ++ ("\n\n").data
          ++ (("The following Figma design is also relevant: ").data
            ++ inputs.figmaUrl ++ ("\n\n").data) ∧
      (∃ u v w, t = u ++ inputs.prdText ++ v ++ inputs.figmaUrl ++ w ∧
        ("The following Figma design is also relevant: ").data ++ inputs.figmaUrl
          <:+ v ++ inputs.figmaUrl) := by
  have hprd : inputs.prdText.isEmpty = false := by
    simpa [List.isEmpty_iff] using h1
  have hfig : inputs.figmaUrl.isEmpty = false := by
    simpa [List.isEmpty_iff] using h2
  have htp : textPromptOf inputs =
      (("Here is the PRD to analyze:\n\n---\n\n").data ++ inputs.prdText
          ++ ("\n\n").data) ++
        (("The following Figma design is also relevant: ").data ++ inputs.figmaUrl
          ++ ("\n\n").data) := by
    simp [textPromptOf, hprd, hfig]
  have hne : (textPromptOf inputs).isEmpty = false := by
    rw [htp]
    simp
  refine ⟨textPromptOf inputs, ?_, ?_, ?_⟩
  · simp [buildMultimodalPrompt, hne]
  · rw [htp]
  · refine ⟨("Here is the PRD to analyze:\n\n---\n\n").data,
      ("\n\n").data ++ ("The following Figma design is also relevant: ").data,
      ("\n\n").data, ?_, ?_⟩
    · rw [htp]
      simp [List.append_assoc]
    · exact ⟨("\n\n").data, by simp [List.append_assoc]⟩

/-- Witness for the amended C9 at a concrete input bundle. -/
theorem prompt_leading_text_part_witness :
    ∃ t, buildMultimodalPrompt promptInputs none =
        Part.text t :: (promptInputs.files.flatMap filePartsOf ++ ctxParts none) ∧
      t = ("Here is the PRD to analyze:\n\n---\n\n").data ++ promptInputs.prdText
          ++ ("\n\n").data
          ++ (("The following Figma design is also relevant: ").data
            ++ promptInputs.figmaUrl ++ ("\n\n").data) ∧
      (∃ u v w, t = u ++ promptInputs.prdText ++ v ++ promptInputs.figmaUrl ++ w ∧
        ("The following Figma design is also relevant: ").data ++ promptInputs.figmaUrl
          <:+ v ++ promptInputs.figmaUrl) :=
  prompt_leading_text_part promptInputs none (by decide) (by decide)

/-- C10: the parser is total by construction, and any input whose surviving
selected lines number fewer than two yields the empty list. -/
theorem parser_totality_small (markdown : Str)
    (h : (lineSelect markdown).length < 2) :
    parseMarkdownTable markdown = [] := by
  unfold parseMarkdownTable
  rcases hls : lineSelect markdown with _ | ⟨a, _ | ⟨b, rest⟩⟩ <;> simp only [hls]
  · rw [hls] at h
    exact absurd h (by simp)

/-- Witness for C10 at the empty string. -/
theorem parser_totality_small_witness :
    (lineSelect []).length < 2 ∧ parseMarkdownTable [] = [] :=
  ⟨by decide, parser_totality_small [] (by decide)⟩

/-- C4: header-order independence — for every permutation `p` of the eight
required columns and every list of logical rows of well-formed cells, parsing
the table built with permuted headers and consistently permuted row cells
yields the records in canonical field assignment, independent of `p`:
column resolution is by header name, not by position. -/
theorem parser_header_order_independence
    (p : List (Fin 8)) (hp : p.Perm (List.finRange 8))
    (rows : List (Fin 8 → Str)) (hrows : ∀ r ∈ rows, ∀ i, cellOk (r i) = true) :
    parseMarkdownTable (mkTable (p.map reqHeader) (rows.map (fun r => p.map r)))
      = rows.map recordOf := by
  have hinj : Function.Injective reqHeader := by decide
  have hHok : ∀ j : Fin 8, cellOk (reqHeader j) = true := by decide
  have hh : ∀ c ∈ p.map reqHeader, cellOk c = true := by
    intro c hc
    rcases List.mem_map.mp hc with ⟨j, _, rfl⟩
    exact hHok j
  have hrr : ∀ r' ∈ rows.map (fun r => p.map r), ∀ c ∈ r', cellOk c = true := by
    intro r' hr' c hc
    rcases List.mem_map.mp hr' with ⟨r, hr, rfl⟩
    rcases List.mem_map.mp hc with ⟨j, _, rfl⟩
    exact hrows r hr j
  have hmem : ∀ j : Fin 8, j ∈ p := fun j => (hp.mem_iff).mpr (List.mem_finRange j)
  have hsplitH : splitCells (mkRow (p.map reqHeader)) = p.map reqHeader :=
    splitCells_mkRow _ hh
  obtain ⟨i0, h0⟩ := idxOf?_isSome_of_mem (0 : Fin 8) p (hmem 0)
  obtain ⟨i1, h1⟩ := idxOf?_isSome_of_mem (1 : Fin 8) p (hmem 1)
  obtain ⟨i2, h2⟩ := idxOf?_isSome_of_mem (2 : Fin 8) p (hmem 2)
  obtain ⟨i3, h3⟩ := idxOf?_isSome_of_mem (3 : Fin 8) p (hmem 3)
  obtain ⟨i4, h4⟩ := idxOf?_isSome_of_mem (4 : Fin 8) p (hmem 4)
  obtain ⟨i5, h5⟩ := idxOf?_isSome_of_mem (5 : Fin 8) p (hmem 5)
  obtain ⟨i6, h6⟩ := idxOf?_isSome_of_mem (6 : Fin 8) p (hmem 6)
  obtain ⟨i7, h7⟩ := idxOf?_isSome_of_mem (7 : Fin 8) p (hmem 7)
  have e0 : idxOf? hTestCaseID (p.map reqHeader) = some i0 := by
    rw [show hTestCaseID = reqHeader 0 from rfl, idxOf?_map_inj reqHeader hinj, h0]
  have e1 : idxOf? hTestType (p.map reqHeader) = some i1 := by
    rw [show hTestType = reqHeader 1 from rfl, idxOf?_map_inj reqHeader hinj, h1]
  have e2 : idxOf? hSummary (p.map reqHeader) = some i2 := by
    rw [show hSummary = reqHeader 2 from rfl, idxOf?_map_inj reqHeader hinj, h2]
  have e3 : idxOf? hPreconditions (p.map reqHeader) = some i3 := by
    rw [show hPreconditions = reqHeader 3 from rfl, idxOf?_map_inj reqHeader hinj, h3]
  have e4 : idxOf? hTestSteps (p.map reqHeader) = some i4 := by
    rw [show hTestSteps = reqHeader 4 from rfl, idxOf?_map_inj reqHeader hinj, h4]
  have e5 : idxOf? hExpectedResult (p.map reqHeader) = some i5 := by
    rw [show hExpectedResult = reqHeader 5 from rfl, idxOf?_map_inj reqHeader hinj, h5]
  have e6 : idxOf? hStoryID (p.map reqHeader) = some i6 := by
    rw [show hStoryID = reqHeader 6 from rfl, idxOf?_map_inj reqHeader hinj, h6]
  have e7 : idxOf? hRiskType (p.map reqHeader) = some i7 := by
    rw [show hRiskType = reqHeader 7 from rfl, idxOf?_map_inj reqHeader hinj, h7]
  have hsel := lineSelect_mkTable (p.map reqHeader) (rows.map (fun r => p.map r)) hh hrr
  unfold parseMarkdownTable
  cases rows with
  | nil =>
    simp only [List.map_nil] at hsel ⊢
    simp only [hsel]
  | cons r0 rows' =>
    simp only [List.map_cons] at hsel ⊢
    simp only [hsel, hsplitH, e0, e1, e2, e3, e4, e5, e6, e7]
    rw [if_neg (by simp)]
    have hrec : ∀ r ∈ r0 :: rows', ∀ j : Fin 8, cellOk (r j) = true := by
      intro r hr j
      exact hrows r hr j
    have hrowrec : ∀ r : Fin 8 → Str, (∀ j : Fin 8, cellOk (r j) = true) →
        ({ id := cellAt (splitCells (mkRow (List.map r p))) i0 strNA,
           type := cellAt (splitCells (mkRow (List.map r p))) i1 strNA,
           summary := cellAt (splitCells (mkRow (List.map r p))) i2 strNoSummary,
           preconditions := cellAt (splitCells (mkRow (List.map r p))) i3 strNone,
           steps := cellAt (splitCells (mkRow (List.map r p))) i4 strNA,
           expectedResult := cellAt (splitCells (mkRow (List.map r p))) i5 strNA,
           storyId := cellAt (splitCells (mkRow (List.map r p))) i6 strNA,
           risk := cellAt (splitCells (mkRow (List.map r p))) i7 strNA } : RawTestCase)
          = recordOf r := by
      intro r hok
      have hcells : ∀ c ∈ List.map r p, cellOk c = true := by
        intro c hc
        rcases List.mem_map.mp hc with ⟨j, _, rfl⟩
        exact hok j
      rw [splitCells_mkRow _ hcells,
        cellAt_resolved p r 0 i0 h0 (hok 0),
        cellAt_resolved p r 1 i1 h1 (hok 1),
        cellAt_resolved p r 2 i2 h2 (hok 2),
        cellAt_resolved p r 3 i3 h3 (hok 3),
        cellAt_resolved p r 4 i4 h4 (hok 4),
        cellAt_resolved p r 5 i5 h5 (hok 5),
        cellAt_resolved p r 6 i6 h6 (hok 6),
        cellAt_resolved p r 7 i7 h7 (hok 7)]
      rfl
    simp only [Option.getD_some]
    rw [List.map_map, List.map_map]
    rw [hrowrec r0 (hrec r0 (List.mem_cons_self _ _))]
    rw [List.cons_eq_cons]
    refine ⟨rfl, ?_⟩
    apply List.map_congr_left
    intro r hr
    show (fun row => _) (mkRow (List.map r p)) = recordOf r
    exact hrowrec r (hrec r (List.mem_cons_of_mem _ hr))

/-- Witness for C4: the reversed header order on one concrete row. -/
theorem parser_header_order_independence_witness :
    parseMarkdownTable (mkTable (((List.finRange 8).reverse).map reqHeader)
        ([wCells].map (fun r => ((List.finRange 8).reverse).map r)))
      = [wCells].map recordOf :=
  parser_header_order_independence (List.finRange 8).reverse (by decide)
    [wCells] (by decide)

end QAPlan
